import Mathlib

/-!
Verification development for the ASM subdomain-monitoring server
(`server.py`).  The Python source is shallowly embedded: each relevant
Python function is translated into an executable Lean definition, and the
specification claims are settled as theorems about those definitions.

Conventions used throughout the embedding:
* Python `str` values are Lean `String`s (hostnames and timestamps in this
  program are ASCII).
* Python `str.lower()` is modelled by `pyLower` (ASCII case folding,
  which coincides with Python's behaviour on the ASCII strings this
  program manipulates); `str.strip()` by `pyStrip`; `str.split(sep)`
  for one-character separators by `pySplit` / `splitOnChar`.
* Python string comparison (used by `sorted`) is modelled by `pyLe`,
  lexicographic comparison of code points, which is exactly Python's
  ordering on strings.
* `sorted(set(xs))` is modelled by `pySortedSet` (deduplicate, then sort).
* ISO-8601 timestamps (`now_iso` / `parse_iso` with format
  `"%Y-%m-%dT%H:%M:%SZ"`) are modelled by `fmtIso` / `parseIso` over a
  calendar datatype `DT`; `parseIso` accepts the canonical zero-padded
  form that `now_iso` emits (CPython's `strptime` additionally accepts
  some unpadded variants that this program never produces).
-/

/-- ASCII lower-casing of one character, modelling Python `str.lower()`
on the ASCII range: `'A'..'Z'` map to `'a'..'z'`, all else unchanged. -/
def pyLowerChar (c : Char) : Char :=
  if 65 ≤ c.toNat ∧ c.toNat ≤ 90 then Char.ofNat (c.toNat + 32) else c

/-- Lower-casing of a string, character by character (Python `str.lower()`). -/
def pyLower (s : String) : String :=
  ⟨s.data.map pyLowerChar⟩

theorem toNat_ofNat_of_small {n : Nat} (h : n < 55296) : (Char.ofNat n).toNat = n := by
  have hv : n.isValidChar := Or.inl h
  simp only [Char.ofNat]
  rw [dif_pos hv]
  simp only [Char.ofNatAux, Char.toNat, UInt32.toNat, BitVec.toNat_ofNatLt]

theorem pyLowerChar_idem (c : Char) : pyLowerChar (pyLowerChar c) = pyLowerChar c := by
  by_cases h : 65 ≤ c.toNat ∧ c.toNat ≤ 90
  · have hlt : c.toNat + 32 < 55296 := by omega
    have h97 : (Char.ofNat (c.toNat + 32)).toNat = c.toNat + 32 := toNat_ofNat_of_small hlt
    unfold pyLowerChar
    rw [if_pos h, h97, if_neg (by omega)]
  · unfold pyLowerChar
    rw [if_neg h, if_neg h]

theorem pyLower_data (s : String) : (pyLower s).data = s.data.map pyLowerChar := rfl

theorem pyLower_fixed_of_chars {l : List Char} (h : ∀ c ∈ l, pyLowerChar c = c) :
    pyLower ⟨l⟩ = ⟨l⟩ := by
  simp only [pyLower]
  congr 1
  exact (List.map_congr_left h).trans (List.map_id _)

theorem chars_pyLower_fixed (s : String) : ∀ c ∈ (pyLower s).data, pyLowerChar c = c := by
  intro c hc
  simp only [pyLower_data, List.mem_map] at hc
  obtain ⟨a, _, rfl⟩ := hc
  exact pyLowerChar_idem a

theorem pyLower_idem (s : String) : pyLower (pyLower s) = pyLower s :=
  pyLower_fixed_of_chars (chars_pyLower_fixed s)

/-- Python `str.strip()`: remove leading and trailing whitespace. -/
def pyStrip (s : String) : String :=
  ⟨((s.data.dropWhile Char.isWhitespace).reverse.dropWhile Char.isWhitespace).reverse⟩

/-- Python `str.split(sep)` for a one-character separator `c`: split at
every occurrence of `c`; `n` separators yield `n + 1` (possibly empty)
parts. -/
def splitOnChar (c : Char) : List Char → List (List Char)
  | [] => [[]]
  | x :: rest =>
    match splitOnChar c rest with
    | [] => [[]]
    | h :: t => if x = c then [] :: h :: t else (x :: h) :: t

/-- String-level wrapper of `splitOnChar`. -/
def pySplit (c : Char) (s : String) : List String :=
  (splitOnChar c s.data).map String.mk

/-- Lexicographic strict comparison of character lists by code point.
This is Python's `<` on strings. -/
def pyLtL : List Char → List Char → Bool
  | [], [] => false
  | [], _ :: _ => true
  | _ :: _, [] => false
  | a :: as, b :: bs => if a < b then true else if b < a then false else pyLtL as bs

/-- Python's `<=` on strings: `a <= b` iff not `b < a`. -/
def pyStrLe (a b : String) : Bool := !(pyLtL b.data a.data)

/-- The ordering relation Python's `sorted` sorts by (ascending). -/
def pyLe (a b : String) : Prop := pyStrLe a b = true

instance : DecidableRel pyLe := fun a b => inferInstanceAs (Decidable (_ = true))

theorem pyLtL_cons_self (a : Char) (as bs : List Char) :
    pyLtL (a :: as) (a :: bs) = pyLtL as bs := by
  simp [pyLtL, lt_irrefl]

theorem pyLtL_cons_of_lt {a b : Char} (hab : a < b) (as bs : List Char) :
    pyLtL (a :: as) (b :: bs) = true := by
  simp [pyLtL, hab]

theorem pyLtL_cons_of_gt {a b : Char} (hab : b < a) (as bs : List Char) :
    pyLtL (a :: as) (b :: bs) = false := by
  simp [pyLtL, lt_asymm hab, hab]

theorem pyLtL_asymm : ∀ {l₁ l₂ : List Char}, pyLtL l₁ l₂ = true → pyLtL l₂ l₁ = false
  | [], [], h => by simp [pyLtL] at h
  | [], _ :: _, _ => by simp [pyLtL]
  | _ :: _, [], h => by simp [pyLtL] at h
  | a :: as, b :: bs, h => by
    rcases lt_trichotomy a b with hab | hab | hab
    · exact pyLtL_cons_of_gt hab bs as
    · subst hab
      rw [pyLtL_cons_self] at h ⊢
      exact pyLtL_asymm h
    · rw [pyLtL_cons_of_gt hab as bs] at h
      exact absurd h (by simp)

theorem pyLtL_trans : ∀ {l₁ l₂ l₃ : List Char},
    pyLtL l₁ l₂ = true → pyLtL l₂ l₃ = true → pyLtL l₁ l₃ = true
  | [], [], _, h, _ => by simp [pyLtL] at h
  | [], _ :: _, [], _, h => by simp [pyLtL] at h
  | [], _ :: _, _ :: _, _, _ => by simp [pyLtL]
  | _ :: _, [], _, h, _ => by simp [pyLtL] at h
  | _ :: _, _ :: _, [], _, h => by simp [pyLtL] at h
  | a :: as, b :: bs, c :: cs, h₁, h₂ => by
    rcases lt_trichotomy a b with hab | hab | hab
    · rcases lt_trichotomy b c with hbc | hbc | hbc
      · exact pyLtL_cons_of_lt (lt_trans hab hbc) as cs
      · subst hbc
        exact pyLtL_cons_of_lt hab as cs
      · rw [pyLtL_cons_of_gt hbc bs cs] at h₂
        exact absurd h₂ (by simp)
    · subst hab
      rcases lt_trichotomy a c with hac | hac | hac
      · exact pyLtL_cons_of_lt hac as cs
      · subst hac
        rw [pyLtL_cons_self] at h₁ h₂ ⊢
        exact pyLtL_trans h₁ h₂
      · rw [pyLtL_cons_of_gt hac bs cs] at h₂
        exact absurd h₂ (by simp)
    · rw [pyLtL_cons_of_gt hab as bs] at h₁
      exact absurd h₁ (by simp)

theorem pyLtL_conn : ∀ {l₁ l₂ : List Char},
    pyLtL l₁ l₂ = false → pyLtL l₂ l₁ = false → l₁ = l₂
  | [], [], _, _ => rfl
  | [], _ :: _, h, _ => by simp [pyLtL] at h
  | _ :: _, [], _, h => by simp [pyLtL] at h
  | a :: as, b :: bs, h₁, h₂ => by
    rcases lt_trichotomy a b with hab | hab | hab
    · rw [pyLtL_cons_of_lt hab as bs] at h₁
      exact absurd h₁ (by simp)
    · subst hab
      rw [pyLtL_cons_self] at h₁ h₂
      rw [pyLtL_conn h₁ h₂]
    · rw [pyLtL_cons_of_lt hab bs as] at h₂
      exact absurd h₂ (by simp)

theorem string_eq_of_data_eq {a b : String} (h : a.data = b.data) : a = b := by
  cases a
  cases b
  exact congrArg String.mk h

instance : IsTotal String pyLe :=
  ⟨fun a b => by
    rcases Bool.eq_false_or_eq_true (pyLtL b.data a.data) with h | h
    · exact Or.inr (by simp [pyLe, pyStrLe, pyLtL_asymm h])
    · exact Or.inl (by simp [pyLe, pyStrLe, h])⟩

instance : IsTrans String pyLe :=
  ⟨fun a b c h₁ h₂ => by
    simp only [pyLe, pyStrLe, Bool.not_eq_true'] at h₁ h₂ ⊢
    rcases Bool.eq_false_or_eq_true (pyLtL c.data a.data) with h | h
    · rcases Bool.eq_false_or_eq_true (pyLtL b.data c.data) with hbc | hbc
      · have hba := pyLtL_trans hbc h
        rw [h₁] at hba
        exact absurd hba (by simp)
      · have heq : b.data = c.data := pyLtL_conn hbc h₂
        rw [← heq] at h
        rw [h₁] at h
        exact absurd h (by simp)
    · exact h⟩

instance : IsAntisymm String pyLe :=
  ⟨fun a b h₁ h₂ => by
    simp only [pyLe, pyStrLe, Bool.not_eq_true'] at h₁ h₂
    exact string_eq_of_data_eq (pyLtL_conn h₂ h₁)⟩

/-- Model of Python `sorted(set(xs))` for strings: the elements of `xs`
without duplicates, in ascending order. -/
def pySortedSet (l : List String) : List String :=
  (l.dedup).insertionSort pyLe

theorem pySortedSet_sorted (l : List String) : List.Sorted pyLe (pySortedSet l) :=
  List.sorted_insertionSort _ _

theorem pySortedSet_nodup (l : List String) : (pySortedSet l).Nodup := by
  unfold pySortedSet
  exact ((List.perm_insertionSort _ _).nodup_iff).mpr l.nodup_dedup

theorem pySortedSet_mem (l : List String) (x : String) :
    x ∈ pySortedSet l ↔ x ∈ l := by
  unfold pySortedSet
  rw [(List.perm_insertionSort _ _).mem_iff, List.mem_dedup]

/-!
Timestamps.  `server.py` keeps timestamps as ISO strings produced by
`now_iso()` (`datetime.strftime` with format `"%Y-%m-%dT%H:%M:%SZ"`, UTC)
and reads them back with `parse_iso` (`datetime.strptime` with the same
format).  `DT` is a calendar datetime at second granularity; `sKey`
converts a valid `DT` to seconds since the start of year 1 of the
proleptic Gregorian calendar, so that for valid datetimes `sKey`
comparison and `sKey` differences agree exactly with Python's `datetime`
comparison and `timedelta` arithmetic.
-/

structure DT where
  year : Nat
  month : Nat
  day : Nat
  hour : Nat
  minute : Nat
  second : Nat
deriving DecidableEq, Repr

def isLeapYear (y : Nat) : Bool :=
  y % 4 == 0 && (y % 100 != 0 || y % 400 == 0)

def monthLength (y m : Nat) : Nat :=
  match m with
  | 1 => 31 | 2 => if isLeapYear y then 29 else 28 | 3 => 31 | 4 => 30
  | 5 => 31 | 6 => 30 | 7 => 31 | 8 => 31 | 9 => 30 | 10 => 31 | 11 => 30
  | 12 => 31 | _ => 0

/-- Validity of a datetime, mirroring the checks done by
`datetime.strptime`'s field patterns plus the `datetime` constructor
(`MINYEAR = 1`, real month lengths, leap years). -/
def validDT (t : DT) : Bool :=
  decide (1 ≤ t.year) && decide (t.year ≤ 9999) &&
  decide (1 ≤ t.month) && decide (t.month ≤ 12) &&
  decide (1 ≤ t.day) && decide (t.day ≤ monthLength t.year t.month) &&
  decide (t.hour ≤ 23) && decide (t.minute ≤ 59) && decide (t.second ≤ 59)

def daysBeforeYear (y : Nat) : Nat :=
  365 * (y - 1) + (y - 1) / 4 + (y - 1) / 400 - (y - 1) / 100

def daysBeforeMonth (y m : Nat) : Nat :=
  (match m with
   | 1 => 0 | 2 => 31 | 3 => 59 | 4 => 90 | 5 => 120 | 6 => 151 | 7 => 181
   | 8 => 212 | 9 => 243 | 10 => 273 | 11 => 304 | 12 => 334 | _ => 0) +
  (if 3 ≤ m && isLeapYear y then 1 else 0)

/-- Seconds since 0001-01-01T00:00:00 of the proleptic Gregorian
calendar.  Chronological order and second differences of valid `DT`s are
exactly those of Python `datetime` values. -/
def sKey (t : DT) : Nat :=
  (((daysBeforeYear t.year + daysBeforeMonth t.year t.month + (t.day - 1)) * 24
    + t.hour) * 60 + t.minute) * 60 + t.second

def digitChar (n : Nat) : Char :=
  Char.ofNat (48 + n % 10)

def toDigit (c : Char) : Option Nat :=
  if 48 ≤ c.toNat ∧ c.toNat ≤ 57 then some (c.toNat - 48) else none

def pad2 (n : Nat) : List Char := [digitChar (n / 10 % 10), digitChar (n % 10)]

def pad4 (n : Nat) : List Char :=
  [digitChar (n / 1000 % 10), digitChar (n / 100 % 10),
   digitChar (n / 10 % 10), digitChar (n % 10)]

/-- Model of `now_iso()` / `datetime.strftime("%Y-%m-%dT%H:%M:%SZ")`:
the canonical zero-padded ISO-8601 rendering of a datetime. -/
def fmtIso (t : DT) : String :=
  ⟨pad4 t.year ++ '-' :: pad2 t.month ++ '-' :: pad2 t.day ++
   'T' :: pad2 t.hour ++ ':' :: pad2 t.minute ++ ':' :: pad2 t.second ++ ['Z']⟩

def readDigit : List Char → Option (Nat × List Char)
  | [] => none
  | c :: rest =>
    match toDigit c with
    | some d => some (d, rest)
    | none => none

def readLit (c : Char) : List Char → Option (List Char)
  | [] => none
  | x :: rest => if x = c then some rest else none

def read2 (l : List Char) : Option (Nat × List Char) := do
  let (a, l) ← readDigit l
  let (b, l) ← readDigit l
  pure (10 * a + b, l)

def read4 (l : List Char) : Option (Nat × List Char) := do
  let (a, l) ← read2 l
  let (b, l) ← read2 l
  pure (100 * a + b, l)

/-- Model of `parse_iso` (`datetime.strptime(ts, "%Y-%m-%dT%H:%M:%SZ")`,
returning `none` where Python raises): parses the canonical zero-padded
form `YYYY-MM-DDTHH:MM:SSZ` (the only form this program ever writes) and
validates the fields exactly as `strptime` + the `datetime` constructor
do.  Any other string is unparseable. -/
def parseIso (s : String) : Option DT := do
  let (y, l) ← read4 s.data
  let l ← readLit '-' l
  let (mo, l) ← read2 l
  let l ← readLit '-' l
  let (d, l) ← read2 l
  let l ← readLit 'T' l
  let (h, l) ← read2 l
  let l ← readLit ':' l
  let (mi, l) ← read2 l
  let l ← readLit ':' l
  let (sec, l) ← read2 l
  let l ← readLit 'Z' l
  match l with
  | [] =>
    let t : DT := ⟨y, mo, d, h, mi, sec⟩
    if validDT t then some t else none
  | _ => none

theorem toDigit_digitChar {k : Nat} (hk : k < 10) : toDigit (digitChar k) = some k := by
  unfold toDigit digitChar
  rw [Nat.mod_eq_of_lt hk, toNat_ofNat_of_small (by omega), if_pos (by omega)]
  congr 1
  omega

theorem readDigit_digitChar {k : Nat} (hk : k < 10) (l : List Char) :
    readDigit (digitChar k :: l) = some (k, l) := by
  simp [readDigit, toDigit_digitChar hk]

theorem readLit_cons_self (c : Char) (l : List Char) :
    readLit c (c :: l) = some l := by
  simp [readLit]

theorem read2_pad2 {n : Nat} (hn : n ≤ 99) (l : List Char) :
    read2 (pad2 n ++ l) = some (n, l) := by
  have h1 : n / 10 % 10 < 10 := Nat.mod_lt _ (by omega)
  have h2 : n % 10 < 10 := Nat.mod_lt _ (by omega)
  simp only [read2, pad2, List.cons_append, List.nil_append,
    readDigit_digitChar h1, readDigit_digitChar h2, Option.bind_eq_bind,
    Option.some_bind]
  have : 10 * (n / 10 % 10) + n % 10 = n := by omega
  rw [this]
  rfl

theorem read4_pad4 {n : Nat} (hn : n ≤ 9999) (l : List Char) :
    read4 (pad4 n ++ l) = some (n, l) := by
  have e1 : pad4 n ++ l = pad2 (n / 100) ++ (pad2 (n % 100) ++ l) := by
    simp only [pad4, pad2, List.cons_append, List.nil_append]
    have a1 : n / 100 / 10 % 10 = n / 1000 % 10 := by
      rw [Nat.div_div_eq_div_mul]
    have a2 : n / 100 % 10 = n / 100 % 10 := rfl
    have a3 : n % 100 / 10 % 10 = n / 10 % 10 := by omega
    have a4 : n % 100 % 10 = n % 10 := by omega
    rw [a1, a3, a4]
  rw [e1]
  have hq : n / 100 ≤ 99 := by omega
  have hr : n % 100 ≤ 99 := by omega
  simp only [read4, read2_pad2 hq, read2_pad2 hr, Option.bind_eq_bind,
    Option.some_bind]
  have : 100 * (n / 100) + n % 100 = n := by omega
  rw [this]
  rfl

theorem parseIso_fmtIso {t : DT} (h : validDT t = true) :
    parseIso (fmtIso t) = some t := by
  have hb : 1 ≤ t.year ∧ t.year ≤ 9999 ∧ 1 ≤ t.month ∧ t.month ≤ 12 ∧
      1 ≤ t.day ∧ t.day ≤ monthLength t.year t.month ∧ t.hour ≤ 23 ∧
      t.minute ≤ 59 ∧ t.second ≤ 59 := by
    simp only [validDT, Bool.and_eq_true, decide_eq_true_eq] at h
    tauto
  have hy : t.year ≤ 9999 := hb.2.1
  have hmo : t.month ≤ 99 := by omega
  have hd : t.day ≤ 99 := by
    have : monthLength t.year t.month ≤ 31 := by
      unfold monthLength
      split <;> first | omega | split <;> omega
    omega
  have hh : t.hour ≤ 99 := by omega
  have hmi : t.minute ≤ 99 := by omega
  have hs : t.second ≤ 99 := by omega
  have hdata : (fmtIso t).data =
      pad4 t.year ++ '-' :: (pad2 t.month ++ '-' :: (pad2 t.day ++
      'T' :: (pad2 t.hour ++ ':' :: (pad2 t.minute ++ ':' :: (pad2 t.second ++ ['Z']))))) := by
    simp [fmtIso]
  simp only [parseIso, hdata, read4_pad4 hy, Option.bind_eq_bind, Option.some_bind,
    readLit_cons_self, read2_pad2 hmo, read2_pad2 hd, read2_pad2 hh,
    read2_pad2 hmi, read2_pad2 hs]
  rw [h]
  simp

/-!
Event log.  `MonitorManager.add_event` builds a `new_assets` event dict
and appends it to `recent_events`, trimming to the most recent 200;
`MonitorManager.get_events_since` filters by timestamp.
-/

structure NewAssetEvent where
  type : String
  domain : String
  count : Nat
  new_subdomains : List String
  timestamp : String
deriving DecidableEq, Repr

/-- Model of the event dict built in `MonitorManager.add_event`. -/
def mkEvent (domain : String) (new_assets : List String) (now : String) : NewAssetEvent :=
  ⟨"new_assets", domain, new_assets.length, new_assets, now⟩

/-- Model of `MonitorManager.add_event`'s mutation of `recent_events`:
append, then keep only the last 200 entries (`recent_events[-200:]`). -/
def add_event (log : List NewAssetEvent) (e : NewAssetEvent) : List NewAssetEvent :=
  let l := log ++ [e]
  if 200 < l.length then l.drop (l.length - 200) else l

/-- Model of `MonitorManager.get_events_since`.  A missing or empty
`since` returns the whole log (a snapshot copy in Python; a pure value
here).  An unparseable `since` returns the whole log.  Otherwise events
are kept when their own timestamp parses to something strictly later
than `since`; an event whose timestamp fails to parse is kept. -/
def get_events_since (events : List NewAssetEvent) (since : Option String) :
    List NewAssetEvent :=
  if since.getD "" = "" then events
  else
    match parseIso (since.getD "") with
    | none => events
    | some sdt =>
      events.filter fun e =>
        match parseIso e.timestamp with
        | some ts => decide (sKey sdt < sKey ts)
        | none => true

/-!
Monitor records and `MonitorManager` operations.  The `monitors` JSON
dict is modelled as an association list with unique keys; `set_monitor`,
the due computation of `_tick` and the per-monitor body of `_tick` are
translated directly.
-/

structure MonitorRecord where
  enabled : Bool
  interval_hours : Int
  last_run : Option String
  last_results : List String
  last_new : List String
  created_at : String
  updated_at : String
deriving DecidableEq, Repr

def MonitorState := List (String × MonitorRecord)

def lookupMonitor : MonitorState → String → Option MonitorRecord
  | [], _ => none
  | (k, v) :: rest, d => if k = d then some v else lookupMonitor rest d

def insertMonitor : MonitorState → String → MonitorRecord → MonitorState
  | [], d, m => [(d, m)]
  | (k, v) :: rest, d, m =>
    if k = d then (d, m) :: rest else (k, v) :: insertMonitor rest d m

theorem lookupMonitor_insert_self (st : MonitorState) (d : String) (m : MonitorRecord) :
    lookupMonitor (insertMonitor st d m) d = some m := by
  induction st with
  | nil => simp [insertMonitor, lookupMonitor]
  | cons kv rest ih =>
    obtain ⟨k, v⟩ := kv
    by_cases h : k = d
    · simp [insertMonitor, lookupMonitor, h]
    · simp [insertMonitor, lookupMonitor, h, ih]

/-- Model of `MonitorManager.set_monitor` (the store's upsert).  The
interval argument is `none` when the request omitted `interval_hours`
(or when Python's `int()` cast of it raised, in which case the code's
`except: pass` leaves the field untouched). -/
def set_monitor (st : MonitorState) (now : DT) (domain : String) (enabled : Bool)
    (interval_hours : Option Int) : MonitorState × MonitorRecord :=
  let d := pyLower (pyStrip domain)
  let m0 := (lookupMonitor st d).getD
    { enabled := false, interval_hours := 12, last_run := none,
      last_results := [], last_new := [],
      created_at := fmtIso now, updated_at := fmtIso now }
  let m1 := { m0 with enabled := enabled }
  let m2 :=
    match interval_hours with
    | none => m1
    | some ih => { m1 with interval_hours := if ih ≤ 0 then 12 else ih }
  let m3 := { m2 with updated_at := fmtIso now }
  (insertMonitor st d m3, m3)

/-- Model of `int(m.get("interval_hours", 12) or 12)` in `_tick`: a
stored value of `0` is falsy in Python and replaced by 12. -/
def effectiveInterval (m : MonitorRecord) : Int :=
  if m.interval_hours = 0 then 12 else m.interval_hours

/-- Model of the due computation in `MonitorManager._tick`: due when
`last_run` is missing or empty, fails to parse, or lies at least
`interval_hours` hours before `now`. -/
def is_due (m : MonitorRecord) (now : DT) : Bool :=
  match m.last_run with
  | none => true
  | some lr =>
    if lr = "" then true
    else
      match parseIso lr with
      | none => true
      | some t => decide ((sKey now : Int) - sKey t ≥ effectiveInterval m * 3600)

/-- Model of the per-monitor body of `MonitorManager._tick` for a due,
enabled monitor, lines 224-239 of `server.py`.  `found` is the scan
result, `saveOk` tells whether `save_json` succeeds.  The record fields
are mutated in place (so they are updated even when the save then
raises); the returned components are the updated in-memory record, the
event passed to `add_event` (if any), and whether the exception from the
failed save aborted the tick.  On a failed save the exception is raised
inside `save_json`, before `add_event` can run. -/
def tick_monitor (domain : String) (m : MonitorRecord) (found : List String) (now : DT)
    (saveOk : Bool) : MonitorRecord × Option NewAssetEvent × Bool :=
  let new_assets := pySortedSet (found.filter fun x => !(m.last_results.contains x))
  let m1 := { m with
    last_run := some (fmtIso now),
    last_results := pySortedSet found,
    last_new := new_assets,
    updated_at := fmtIso now }
  if saveOk then
    (m1, if new_assets.isEmpty then none
         else some (mkEvent domain new_assets (fmtIso now)), false)
  else
    (m1, none, true)

/-!
Domain validation and the `POST /api/monitor` handler
(`SubdomainAPIHandler.handle_monitor_post`).
-/

/-- Character class `[a-zA-Z0-9]` of the domain regex. -/
def isAlnumA (c : Char) : Bool := c.isAlpha || c.isDigit

/-- Match of the regex fragment `[a-zA-Z0-9][a-zA-Z0-9-]{0,61}[a-zA-Z0-9]?`
against a whole label: nonempty, first character alphanumeric, all
characters alphanumeric or hyphen, and length at most 63 where length 63
requires the last character to be alphanumeric (lengths up to 62 may end
in a hyphen, because the final `[a-zA-Z0-9]?` is optional). -/
def firstLabelOk (l : List Char) : Bool :=
  match l with
  | [] => false
  | c :: rest =>
    isAlnumA c && rest.all (fun x => isAlnumA x || x == '-') &&
      (decide (l.length ≤ 62) ||
        (decide (l.length = 63) && isAlnumA (l.getLastD 'a')))

/-- Match of the regex fragment `[a-zA-Z]{2,}` against a whole label. -/
def alphaLabel2 (l : List Char) : Bool :=
  decide (2 ≤ l.length) && l.all Char.isAlpha

/-- Model of the anchored regex
`^[a-zA-Z0-9][a-zA-Z0-9-]{0,61}[a-zA-Z0-9]?\.([a-zA-Z]{2,}|[a-zA-Z]{2,}\.[a-zA-Z]{2,})$`
from `handle_monitor_post`.  The first fragment contains no dot and the
tail alternation contains at most one, so the regex matches exactly the
strings of two or three dot-separated labels whose first label matches
the first fragment and whose remaining labels are alphabetic of length
at least two. -/
def pyDomainMatch (s : String) : Bool :=
  match splitOnChar '.' s.data with
  | [a, b] => firstLabelOk a && alphaLabel2 b
  | [a, b, c] => firstLabelOk a && alphaLabel2 b && alphaLabel2 c
  | _ => false

/-- Follows the spec's words (§3), for comparison with `pyDomainMatch`:
"labels of alphanumerics/hyphens, no leading/trailing hyphen, final
label alphabetic length ≥ 2". -/
def specHostnameOk (s : String) : Bool :=
  let labels := splitOnChar '.' s.data
  labels.all (fun l =>
    !l.isEmpty && l.all (fun c => isAlnumA c || c == '-') &&
    !(l.headD '-' == '-') && !(l.getLastD '-' == '-')) &&
  (match labels.getLast? with
   | some lastLabel => decide (2 ≤ lastLabel.length) && lastLabel.all Char.isAlpha
   | none => false)

structure MonitorPostPayload where
  domain : Option String
  enabled : Option Bool
  interval_hours : Option Int

/-- Model of `SubdomainAPIHandler.handle_monitor_post` after JSON
decoding: normalize the domain (`strip().lower()`), default `enabled`
to `True` when absent (`payload.get("enabled", True)`), reject an empty
or non-matching domain before any record is created or persisted, and
otherwise upsert through `set_monitor`. -/
def handle_monitor_post (st : MonitorState) (now : DT) (p : MonitorPostPayload) :
    Except String (MonitorState × MonitorRecord) :=
  let domain := pyLower (pyStrip (p.domain.getD ""))
  let enabled := p.enabled.getD true
  if domain = "" then .error "Missing domain"
  else if !(pyDomainMatch domain) then .error "Invalid domain"
  else .ok (set_monitor st now domain enabled p.interval_hours)

/-!
Discovery sources.  `fetch_crt_subdomains`, `fetch_wayback_subdomains`
and `run_subfinder` each normalize, filter to the target domain and
return a sorted set; `_scan_domain` merges the three with
`sorted(set(crt) | set(wb) | set(sf))`.  Network or subprocess input is
passed in as data: the certificate rows' `name_value` strings, the CDX
response lines, and subfinder's stdout lines.  The one piece of host
extraction done by a library (`urlparse(...).netloc`) is abstracted as a
function parameter `netloc`; everything after it is translated from the
source.
-/

/-- Python `s.split(sep)[-1]` for a one-character separator: the suffix
after the last occurrence of `c` (the whole list when `c` is absent). -/
def afterLastSep (c : Char) (l : List Char) : List Char :=
  (l.reverse.takeWhile (fun x => x ≠ c)).reverse

/-- Python `s.split(sep)[0]` for a one-character separator: the prefix
before the first occurrence of `c` (the whole list when `c` is absent). -/
def beforeFirstSep (c : Char) (l : List Char) : List Char :=
  l.takeWhile (fun x => x ≠ c)

theorem mem_afterLastSep {c x : Char} {l : List Char} (h : x ∈ afterLastSep c l) :
    x ∈ l := by
  unfold afterLastSep at h
  rw [List.mem_reverse] at h
  have := (List.takeWhile_sublist _).mem h
  rwa [List.mem_reverse] at this

theorem mem_beforeFirstSep {c x : Char} {l : List Char} (h : x ∈ beforeFirstSep c l) :
    x ∈ l :=
  (List.takeWhile_sublist _).mem h

/-- Python `n.endswith(suffix)`. -/
def pyEndsWith (s suffix : String) : Bool :=
  suffix.data.isSuffixOf s.data

/-- The filter applied by every source:
`host and (host == domain or host.endswith("." + domain))`. -/
def keepRelated (domain host : String) : Bool :=
  host ≠ "" && (host == domain || pyEndsWith host ("." ++ domain))

/-- Model of `SubdomainAPIHandler.fetch_crt_subdomains`, taking the list
of `name_value` fields of the decoded crt.sh rows: split each on
newlines, strip and lower-case, keep entries equal to the domain or
ending in `"." + domain`, return as a sorted set. -/
def fetch_crt_subdomains (domain : String) (nameValues : List String) : List String :=
  let names := nameValues.flatMap (fun nv => pySplit '\n' nv)
  let cands := names.map (fun name => pyLower (pyStrip name))
  pySortedSet (cands.filter (keepRelated domain))

/-- Model of `SubdomainAPIHandler.fetch_wayback_subdomains`, taking the
stripped nonempty CDX response lines and the library's URL-authority
extraction (`urlparse(line if '://' in line else 'http://' + line).netloc`)
as the function `netloc`: extract
`netloc.split('@')[-1].split(':')[0].lower()`, keep entries equal to the
domain or ending in `"." + domain`, return as a sorted set. -/
def fetch_wayback_subdomains (domain : String) (netloc : String → String)
    (rawLines : List String) : List String :=
  let lines := (rawLines.map pyStrip).filter (fun ln => ln ≠ "")
  let hosts := lines.map (fun line =>
    pyLower ⟨beforeFirstSep ':' (afterLastSep '@' (netloc line).data)⟩)
  pySortedSet (hosts.filter (keepRelated domain))

/-- Model of `SubdomainAPIHandler.run_subfinder`, taking subfinder's
stdout lines: strip, drop empties, lower-case, extract
`h.split('@')[-1].split(':')[0]`, keep entries equal to the domain or
ending in `"." + domain`, deduplicate keeping the first occurrence, and
sort. -/
def run_subfinder (domain : String) (stdoutLines : List String) : List String :=
  let lines := ((stdoutLines.map pyStrip).filter (fun ln => ln ≠ "")).map pyLower
  let out := lines.foldl (fun (acc : List String) h =>
    let host : String := ⟨beforeFirstSep ':' (afterLastSep '@' h.data)⟩
    if keepRelated domain host && !(acc.contains host) then acc ++ [host] else acc) []
  out.insertionSort pyLe

/-- Model of `MonitorManager._scan_domain`:
`sorted(set(crt) | set(wb) | set(sf))`. -/
def scan_domain (domain : String) (crtNameValues : List String)
    (netloc : String → String) (waybackLines : List String)
    (subfinderLines : List String) : List String :=
  pySortedSet (fetch_crt_subdomains domain crtNameValues ++
    fetch_wayback_subdomains domain netloc waybackLines ++
    run_subfinder domain subfinderLines)

/-!
The `/api/meta` enrichment endpoint
(`SubdomainAPIHandler.handle_meta_api`).  Probe results are
request-scoped dicts; only the `host` key participates in the ordering
contract, so a probe result is modelled as its host plus an opaque
payload, and the per-host prober (`fetch_one_host`, which always sets
`"host": host` on both its success and failure paths) is a function
parameter.
-/

structure ProbeResult where
  host : String
  payload : List (String × String)
deriving DecidableEq, Repr

/-- Model of the normalization/deduplication loop of `handle_meta_api`:
strip and lower-case each host, drop empties, and keep the first
occurrence of each distinct normalized host (`seen` set + `ordered_hosts`
list). -/
def dedup_hosts (hosts : List String) : List String :=
  hosts.foldl (fun (acc : List String) h =>
    let h := pyLower (pyStrip h)
    if h = "" || acc.contains h then acc else acc ++ [h]) []

/-- Model of the validation prefix of `handle_meta_api`: reject an empty
hosts array, reject more than 200 hosts (before deduplication), and
otherwise return the deduplicated host order. -/
def handle_meta_hosts (hosts : List String) : Except String (List String) :=
  if hosts.isEmpty then .error "Provide a non-empty hosts array"
  else if 200 < hosts.length then .error "Too many hosts; max 200 per request"
  else .ok (dedup_hosts hosts)

/-- Position of the first occurrence of a host in the ordered host
list, mirroring the `order_index` dict built by `enumerate`. -/
def order_index : List String → String → Option Nat
  | [], _ => none
  | h :: t, x => if h == x then some 0 else (order_index t x).map (fun i => i + 1)

/-- Model of `order_index.get(r.get('host', ''), 10**9)`: the position of
the result's host in `ordered_hosts`, defaulting to `10^9`. -/
def probeSortKey (ordered_hosts : List String) (r : ProbeResult) : Nat :=
  (order_index ordered_hosts r.host).getD (10 ^ 9)

/-- Model of `results.sort(key=...)`: sort the probe results by their
`probeSortKey` (Python's sort is stable; on the distinct keys produced
by a deduplicated host list any correct sort gives the same answer). -/
def pySortResults (ordered_hosts : List String) (results : List ProbeResult) :
    List ProbeResult :=
  results.insertionSort (fun a b => probeSortKey ordered_hosts a ≤ probeSortKey ordered_hosts b)

/-- Model of the full accepted path of `handle_meta_api`: validate,
deduplicate, probe every ordered host (`asyncio.gather` keeps task
order), and sort the collected results back into request order. -/
def handle_meta (probe : String → ProbeResult) (hosts : List String) :
    Except String (List ProbeResult) :=
  match handle_meta_hosts hosts with
  | .error e => .error e
  | .ok ordered => .ok (pySortResults ordered (ordered.map probe))

/-!
Claim theorems.
-/

theorem add_event_length_le (log : List NewAssetEvent) (e : NewAssetEvent)
    (h : log.length ≤ 200) : (add_event log e).length ≤ 200 := by
  unfold add_event
  by_cases hc : 200 < (log ++ [e]).length
  · rw [if_pos hc]
    simp only [List.length_drop, List.length_append, List.length_singleton]
    omega
  · rw [if_neg hc]
    simp only [List.length_append, List.length_singleton] at hc ⊢
    omega

theorem foldl_add_event_length (es : List NewAssetEvent) :
    ∀ acc : List NewAssetEvent, acc.length ≤ 200 →
      (es.foldl add_event acc).length ≤ 200 := by
  induction es with
  | nil => intro acc h; simpa using h
  | cons e rest ih =>
    intro acc h
    exact ih _ (add_event_length_le acc e h)

/-- C3: the event log never holds more than 200 events — any sequence of
appends starting from the empty log stays within 200 — and appending to
a log of exactly 200 entries drops the oldest entry and keeps the
remaining 200 in their relative order, with the new event at the end. -/
theorem add_event_bounded_fifo :
    (∀ es : List NewAssetEvent, (es.foldl add_event []).length ≤ 200) ∧
    (∀ (log : List NewAssetEvent) (e : NewAssetEvent), log.length = 200 →
      add_event log e = log.drop 1 ++ [e]) := by
  constructor
  · intro es
    exact foldl_add_event_length es [] (by simp)
  · intro log e h
    unfold add_event
    have hc : 200 < (log ++ [e]).length := by
      simp only [List.length_append, List.length_singleton]
      omega
    rw [if_pos hc]
    have hlen : (log ++ [e]).length - 200 = 1 := by
      simp only [List.length_append, List.length_singleton]
      omega
    rw [hlen]
    cases log with
    | nil => simp at h
    | cons a t => simp

/-- Witness for C3 at a concrete 200-entry log. -/
theorem add_event_bounded_fifo_witness :
    (List.replicate 200 (mkEvent "example.com" ["a.example.com"] "2025-01-01T00:00:00Z")).length = 200 ∧
    add_event (List.replicate 200 (mkEvent "example.com" ["a.example.com"] "2025-01-01T00:00:00Z"))
        (mkEvent "example.com" ["b.example.com"] "2025-01-02T00:00:00Z") =
      (List.replicate 200 (mkEvent "example.com" ["a.example.com"] "2025-01-01T00:00:00Z")).drop 1 ++
        [mkEvent "example.com" ["b.example.com"] "2025-01-02T00:00:00Z"] :=
  ⟨List.length_replicate 200 _, add_event_bounded_fifo.2 _ _ (List.length_replicate 200 _)⟩

theorem tick_monitor_record (domain : String) (m : MonitorRecord) (found : List String)
    (now : DT) (saveOk : Bool) :
    (tick_monitor domain m found now saveOk).1 = { m with
      last_run := some (fmtIso now),
      last_results := pySortedSet found,
      last_new := pySortedSet (found.filter fun x => !(m.last_results.contains x)),
      updated_at := fmtIso now } := by
  unfold tick_monitor
  cases saveOk <;> simp

theorem tick_monitor_event_true (domain : String) (m : MonitorRecord) (found : List String)
    (now : DT) :
    (tick_monitor domain m found now true).2.1 =
      (if (pySortedSet (found.filter fun x => !(m.last_results.contains x))).isEmpty then none
       else some (mkEvent domain
         (pySortedSet (found.filter fun x => !(m.last_results.contains x))) (fmtIso now))) := by
  unfold tick_monitor
  simp

/-- C2: for a scheduled scan with result `found` and previous
`last_results`, the computed new-assets set is exactly the set
difference `found − last_results`; an event is handed to `add_event` iff
that difference is non-empty, and the event lists exactly the new
assets; `last_results` is replaced by `found` (hosts that disappeared
are silently dropped — they are simply absent from the new
`last_results`, and the only event ever emitted is a `new_assets`
event about the additions). -/
theorem tick_monitor_diff (domain : String) (m : MonitorRecord) (found : List String)
    (now : DT) :
    (∀ x, x ∈ (tick_monitor domain m found now true).1.last_new ↔
      (x ∈ found ∧ x ∉ m.last_results)) ∧
    ((tick_monitor domain m found now true).2.1 ≠ none ↔
      ∃ x, x ∈ found ∧ x ∉ m.last_results) ∧
    (∀ x, x ∈ (tick_monitor domain m found now true).1.last_results ↔ x ∈ found) ∧
    (∀ e, (tick_monitor domain m found now true).2.1 = some e →
      e.type = "new_assets" ∧ e.domain = domain ∧
      e.new_subdomains = (tick_monitor domain m found now true).1.last_new ∧
      e.count = (tick_monitor domain m found now true).1.last_new.length) := by
  have hrec := tick_monitor_record domain m found now true
  have hevt := tick_monitor_event_true domain m found now
  have hmem : ∀ x, x ∈ pySortedSet (found.filter fun y => !(m.last_results.contains y)) ↔
      (x ∈ found ∧ x ∉ m.last_results) := by
    intro x
    rw [pySortedSet_mem, List.mem_filter]
    simp
  have hnil : (pySortedSet (found.filter fun y => !(m.last_results.contains y))) = [] ↔
      ¬∃ x, x ∈ found ∧ x ∉ m.last_results := by
    rw [List.eq_nil_iff_forall_not_mem]
    constructor
    · intro h hex
      obtain ⟨x, hx⟩ := hex
      exact (h x) ((hmem x).mpr hx)
    · intro h x hx
      exact h ⟨x, (hmem x).mp hx⟩
  refine ⟨?_, ?_, ?_, ?_⟩
  · intro x
    rw [hrec]
    exact hmem x
  · rw [hevt]
    by_cases hcase : (pySortedSet (found.filter fun y => !(m.last_results.contains y))) = []
    · rw [if_pos (List.isEmpty_iff.mpr hcase)]
      simp only [ne_eq, not_true_eq_false, false_iff]
      exact hnil.mp hcase
    · rw [if_neg (fun hc => hcase (List.isEmpty_iff.mp hc))]
      simp only [ne_eq, reduceCtorEq, not_false_eq_true, true_iff]
      by_contra hno
      exact hcase (hnil.mpr hno)
  · intro x
    rw [hrec]
    exact pySortedSet_mem found x
  · intro e he
    rw [hevt] at he
    by_cases hcase : (pySortedSet (found.filter fun y => !(m.last_results.contains y))) = []
    · rw [if_pos (List.isEmpty_iff.mpr hcase)] at he
      exact absurd he (by simp)
    · rw [if_neg (fun hc => hcase (List.isEmpty_iff.mp hc))] at he
      cases he
      rw [hrec]
      exact ⟨rfl, rfl, rfl, rfl⟩

/-- C10: a supplied but unparseable `since` value makes the feed return
the full event list (same as no timestamp), never an error or an empty
list; and an event whose own stored timestamp fails to parse is always
included in the result of any timestamped query. -/
theorem get_events_since_unparseable (events : List NewAssetEvent) (s : String)
    (hbad : parseIso s = none) :
    get_events_since events (some s) = events ∧
    (∀ (T : String) (e : NewAssetEvent), e ∈ events → parseIso e.timestamp = none →
      e ∈ get_events_since events (some T)) := by
  constructor
  · unfold get_events_since
    by_cases hs : s = ""
    · rw [if_pos (by simp [hs])]
    · rw [if_neg (by simp [hs])]
      simp only [Option.getD_some]
      rw [hbad]
  · intro T e he hbadE
    unfold get_events_since
    by_cases hT : T = ""
    · rw [if_pos (by simp [hT])]
      exact he
    · rw [if_neg (by simp [hT])]
      simp only [Option.getD_some]
      cases hp : parseIso T with
      | none => exact he
      | some t =>
        rw [List.mem_filter]
        refine ⟨he, ?_⟩
        rw [hbadE]

/-- Witness for C10: the malformed query `since=yesterday` returns the
full log, and an event with a malformed stored timestamp survives a
well-formed timestamped query. -/
theorem get_events_since_unparseable_witness :
    parseIso "yesterday" = none ∧
    get_events_since [mkEvent "example.com" ["a.example.com"] "oops"] (some "yesterday") =
      [mkEvent "example.com" ["a.example.com"] "oops"] ∧
    mkEvent "example.com" ["a.example.com"] "oops" ∈
      get_events_since [mkEvent "example.com" ["a.example.com"] "oops"]
        (some "2025-01-01T00:00:00Z") :=
  ⟨by decide,
   (get_events_since_unparseable [mkEvent "example.com" ["a.example.com"] "oops"]
     "yesterday" (by decide)).1,
   (get_events_since_unparseable [mkEvent "example.com" ["a.example.com"] "oops"]
     "yesterday" (by decide)).2 "2025-01-01T00:00:00Z"
     (mkEvent "example.com" ["a.example.com"] "oops") (by decide) (by decide)⟩

/-- C7: an enrichment request with more than 200 hosts is rejected with
the validation error, independent of the prober — no probes are
executed and the batch is not truncated to a 200-host prefix. -/
theorem handle_meta_rejects_oversized (hosts : List String) (probe : String → ProbeResult)
    (h : 200 < hosts.length) :
    handle_meta probe hosts = .error "Too many hosts; max 200 per request" ∧
    handle_meta_hosts hosts = .error "Too many hosts; max 200 per request" := by
  have hne : ¬(hosts.isEmpty = true) := by
    rw [List.isEmpty_iff]
    intro hc
    rw [hc] at h
    simp at h
  have hmeta : handle_meta_hosts hosts = .error "Too many hosts; max 200 per request" := by
    unfold handle_meta_hosts
    rw [if_neg hne, if_pos h]
  refine ⟨?_, hmeta⟩
  unfold handle_meta
  rw [hmeta]

/-- Witness for C7 at a concrete batch of 201 hosts. -/
theorem handle_meta_rejects_oversized_witness :
    200 < (List.replicate 201 "a.example.com").length ∧
    handle_meta (fun h => ⟨h, []⟩) (List.replicate 201 "a.example.com") =
      .error "Too many hosts; max 200 per request" := by
  have hlen : (List.replicate 201 "a.example.com").length = 201 := List.length_replicate 201 _
  have h200 : 200 < (List.replicate 201 "a.example.com").length := by
    rw [hlen]
    omega
  exact ⟨h200, (handle_meta_rejects_oversized _ _ h200).1⟩

/-- C4: querying the feed with a parseable `since = T` returns exactly
the events whose own timestamp is strictly greater than `T` (assuming,
as holds for every event the scheduler writes, that all stored event
timestamps parse); an event timestamped exactly `T` is excluded, so a
caller re-polling with the last event's own timestamp never sees it
again; and with no timestamp the full log is returned. -/
theorem get_events_since_strict (events : List NewAssetEvent) (T : String) (t : DT)
    (hT : parseIso T = some t)
    (hall : ∀ e ∈ events, (parseIso e.timestamp).isSome = true) :
    (∀ e, e ∈ get_events_since events (some T) ↔
      (e ∈ events ∧ ∃ te, parseIso e.timestamp = some te ∧ sKey t < sKey te)) ∧
    (∀ e ∈ events, e.timestamp = T → e ∉ get_events_since events (some T)) ∧
    get_events_since events none = events := by
  have hTne : ¬((some T).getD "" = "") := by
    simp only [Option.getD_some]
    intro hc
    rw [hc] at hT
    have hempty : parseIso "" = none := by decide
    rw [hempty] at hT
    cases hT
  have hform : get_events_since events (some T) =
      events.filter fun e =>
        match parseIso e.timestamp with
        | some ts => decide (sKey t < sKey ts)
        | none => true := by
    unfold get_events_since
    rw [if_neg hTne]
    simp only [Option.getD_some]
    rw [hT]
  have hmain : ∀ e, e ∈ get_events_since events (some T) ↔
      (e ∈ events ∧ ∃ te, parseIso e.timestamp = some te ∧ sKey t < sKey te) := by
    intro e
    rw [hform, List.mem_filter]
    constructor
    · rintro ⟨he, hp⟩
      refine ⟨he, ?_⟩
      cases hpe : parseIso e.timestamp with
      | none =>
        have := hall e he
        rw [hpe] at this
        simp at this
      | some te =>
        rw [hpe] at hp
        simp only [decide_eq_true_eq] at hp
        exact ⟨te, rfl, hp⟩
    · rintro ⟨he, te, hpe, hlt⟩
      refine ⟨he, ?_⟩
      rw [hpe]
      simpa using hlt
  refine ⟨hmain, ?_, rfl⟩
  intro e he hts hmem
  rw [hmain e] at hmem
  obtain ⟨-, te, hpe, hlt⟩ := hmem
  rw [hts, hT] at hpe
  cases hpe
  exact absurd hlt (lt_irrefl _)

/-- Witness for C4: with two events a second apart and `since` equal to
the first event's timestamp, the first event (tied timestamp) is
excluded and the second (strictly later) is included. -/
theorem get_events_since_strict_witness :
    parseIso "2025-03-01T00:00:00Z" = some ⟨2025, 3, 1, 0, 0, 0⟩ ∧
    (mkEvent "d" ["a.d"] "2025-03-01T00:00:00Z" ∉
      get_events_since
        [mkEvent "d" ["a.d"] "2025-03-01T00:00:00Z", mkEvent "d" ["b.d"] "2025-03-01T00:00:01Z"]
        (some "2025-03-01T00:00:00Z")) ∧
    (mkEvent "d" ["b.d"] "2025-03-01T00:00:01Z" ∈
      get_events_since
        [mkEvent "d" ["a.d"] "2025-03-01T00:00:00Z", mkEvent "d" ["b.d"] "2025-03-01T00:00:01Z"]
        (some "2025-03-01T00:00:00Z")) :=
  ⟨by decide,
   (get_events_since_strict
      [mkEvent "d" ["a.d"] "2025-03-01T00:00:00Z", mkEvent "d" ["b.d"] "2025-03-01T00:00:01Z"]
      "2025-03-01T00:00:00Z" ⟨2025, 3, 1, 0, 0, 0⟩ (by decide) (by decide)).2.1
     (mkEvent "d" ["a.d"] "2025-03-01T00:00:00Z") (by decide) rfl,
   ((get_events_since_strict
      [mkEvent "d" ["a.d"] "2025-03-01T00:00:00Z", mkEvent "d" ["b.d"] "2025-03-01T00:00:01Z"]
      "2025-03-01T00:00:00Z" ⟨2025, 3, 1, 0, 0, 0⟩ (by decide) (by decide)).1
     (mkEvent "d" ["b.d"] "2025-03-01T00:00:01Z")).mpr
     ⟨by decide, ⟨2025, 3, 1, 0, 0, 1⟩, by decide, by decide⟩⟩

theorem fmtIso_ne_empty (t : DT) : fmtIso t ≠ "" := by
  intro h
  have hd := congrArg String.data h
  simp [fmtIso, pad4, pad2] at hd

/-- C1, counterexample to the claim as stated: for a due monitor whose
store save fails (`saveOk = false`), the tick has already mutated the
in-memory record — `last_run` and `last_results` differ from their
values before the tick — and at the next wake, five minutes later, the
monitor is NOT evaluated as due (its in-memory `last_run` was set by the
failed tick). -/
theorem tick_monitor_persist_failure_counterexample :
    is_due ⟨true, 12, none, [], [], "2025-01-15T09:00:00Z", "2025-01-15T09:00:00Z"⟩
      ⟨2025, 1, 15, 10, 0, 0⟩ = true ∧
    (tick_monitor "example.com"
      ⟨true, 12, none, [], [], "2025-01-15T09:00:00Z", "2025-01-15T09:00:00Z"⟩
      ["a.example.com"] ⟨2025, 1, 15, 10, 0, 0⟩ false).1.last_run ≠
      (⟨true, 12, none, [], [], "2025-01-15T09:00:00Z", "2025-01-15T09:00:00Z"⟩ :
        MonitorRecord).last_run ∧
    (tick_monitor "example.com"
      ⟨true, 12, none, [], [], "2025-01-15T09:00:00Z", "2025-01-15T09:00:00Z"⟩
      ["a.example.com"] ⟨2025, 1, 15, 10, 0, 0⟩ false).1.last_results ≠
      (⟨true, 12, none, [], [], "2025-01-15T09:00:00Z", "2025-01-15T09:00:00Z"⟩ :
        MonitorRecord).last_results ∧
    is_due (tick_monitor "example.com"
      ⟨true, 12, none, [], [], "2025-01-15T09:00:00Z", "2025-01-15T09:00:00Z"⟩
      ["a.example.com"] ⟨2025, 1, 15, 10, 0, 0⟩ false).1 ⟨2025, 1, 15, 10, 5, 0⟩ = false := by
  decide

/-- C1, amended: when the save fails during a tick for a due monitor,
the in-memory record has already been updated — `last_run`,
`last_results`, `last_new` and `updated_at` carry the failed tick's new
values — no event is appended for that monitor (the exception in
`save_json` fires before `add_event`), the exception aborts the tick,
and the monitor is NOT due again at the next wake: it only becomes due
once its interval has elapsed from the failed tick's own `last_run`. -/
theorem tick_monitor_persist_failure (domain : String) (m : MonitorRecord)
    (found : List String) (now : DT) (hvalid : validDT now = true) :
    (tick_monitor domain m found now false).1.last_run = some (fmtIso now) ∧
    (tick_monitor domain m found now false).1.last_results = pySortedSet found ∧
    (tick_monitor domain m found now false).1.last_new =
      pySortedSet (found.filter fun x => !(m.last_results.contains x)) ∧
    (tick_monitor domain m found now false).1.updated_at = fmtIso now ∧
    (tick_monitor domain m found now false).2.1 = none ∧
    (tick_monitor domain m found now false).2.2 = true ∧
    (∀ now2 : DT, (sKey now2 : Int) < sKey now + effectiveInterval m * 3600 →
      is_due (tick_monitor domain m found now false).1 now2 = false) := by
  have hrec := tick_monitor_record domain m found now false
  have hsnd : (tick_monitor domain m found now false).2 = (none, true) := by
    unfold tick_monitor
    simp
  refine ⟨by rw [hrec], by rw [hrec], by rw [hrec], by rw [hrec],
    by rw [hsnd], by rw [hsnd], ?_⟩
  intro now2 hlt
  rw [hrec]
  have heff : effectiveInterval { m with
      last_run := some (fmtIso now),
      last_results := pySortedSet found,
      last_new := pySortedSet (found.filter fun x => !(m.last_results.contains x)),
      updated_at := fmtIso now } = effectiveInterval m := rfl
  simp only [is_due, heff]
  rw [if_neg (fmtIso_ne_empty now), parseIso_fmtIso hvalid]
  show decide ((sKey now2 : Int) - sKey now ≥ effectiveInterval m * 3600) = false
  exact decide_eq_false (by omega)

/-- Witness for C1's amended theorem at a concrete monitor, scan time
and next wake five minutes later. -/
theorem tick_monitor_persist_failure_witness :
    validDT ⟨2025, 6, 1, 12, 0, 0⟩ = true ∧
    ((sKey ⟨2025, 6, 1, 12, 5, 0⟩ : Int) < sKey ⟨2025, 6, 1, 12, 0, 0⟩ +
      effectiveInterval ⟨true, 12, none, ["a.example.com"], [], "2025-05-31T12:00:00Z",
        "2025-05-31T12:00:00Z"⟩ * 3600) ∧
    is_due (tick_monitor "example.com"
      ⟨true, 12, none, ["a.example.com"], [], "2025-05-31T12:00:00Z", "2025-05-31T12:00:00Z"⟩
      ["a.example.com", "b.example.com"] ⟨2025, 6, 1, 12, 0, 0⟩ false).1
      ⟨2025, 6, 1, 12, 5, 0⟩ = false :=
  ⟨by decide, by decide,
   (tick_monitor_persist_failure "example.com"
     ⟨true, 12, none, ["a.example.com"], [], "2025-05-31T12:00:00Z", "2025-05-31T12:00:00Z"⟩
     ["a.example.com", "b.example.com"] ⟨2025, 6, 1, 12, 0, 0⟩
     (by decide)).2.2.2.2.2.2 ⟨2025, 6, 1, 12, 5, 0⟩ (by decide)⟩

theorem set_monitor_enabled (st : MonitorState) (now : DT) (domain : String)
    (enabled : Bool) (ih : Option Int) :
    (set_monitor st now domain enabled ih).2.enabled = enabled := by
  unfold set_monitor
  cases ih <;> rfl

/-- C9, counterexample to the claim as stated: creating a monitor with a
request that does not specify `enabled` yields a record with
`enabled = true`, not `false` — `handle_monitor_post` defaults the flag
with `payload.get("enabled", True)` and `set_monitor` always overwrites
the template's `enabled = False` with that argument. -/
theorem handle_monitor_post_default_enabled_counterexample :
    lookupMonitor [] "example.com" = none ∧
    (handle_monitor_post [] ⟨2025, 1, 1, 0, 0, 0⟩
      ⟨some "example.com", none, none⟩).toOption.map (fun x => x.2.enabled) = some true := by
  decide

/-- C9, amended: upsert through `set_monitor` creates, for an absent
domain, a record whose `enabled` equals the caller's argument (which
`handle_monitor_post` defaults to `true` — not `false` — when the
request omits it), whose `interval_hours` defaults to 12 when no
interval is given and is coerced to 12 from any non-positive input, and
whose scan state starts empty; for an existing record it overwrites
exactly `enabled`, `interval_hours` (when given, with the same
non-positive coercion) and `updated_at`, preserving the scan state, and
stores the result back under the same key. -/
theorem set_monitor_upsert (st : MonitorState) (now : DT) (domain : String)
    (enabled : Bool) (ih : Option Int) :
    (lookupMonitor st (pyLower (pyStrip domain)) = none →
      (set_monitor st now domain enabled ih).2 = {
        enabled := enabled,
        interval_hours := match ih with | none => 12 | some v => if v ≤ 0 then 12 else v,
        last_run := none, last_results := [], last_new := [],
        created_at := fmtIso now, updated_at := fmtIso now }) ∧
    (∀ m0, lookupMonitor st (pyLower (pyStrip domain)) = some m0 →
      (set_monitor st now domain enabled ih).2 = {
        enabled := enabled,
        interval_hours :=
          match ih with | none => m0.interval_hours | some v => if v ≤ 0 then 12 else v,
        last_run := m0.last_run, last_results := m0.last_results,
        last_new := m0.last_new, created_at := m0.created_at,
        updated_at := fmtIso now }) ∧
    lookupMonitor (set_monitor st now domain enabled ih).1 (pyLower (pyStrip domain)) =
      some (set_monitor st now domain enabled ih).2 ∧
    (∀ (p : MonitorPostPayload) (st' : MonitorState) (mrec : MonitorRecord),
      p.enabled = none → handle_monitor_post st now p = .ok (st', mrec) →
      mrec.enabled = true) := by
  refine ⟨?_, ?_, ?_, ?_⟩
  · intro hnone
    unfold set_monitor
    simp only [hnone, Option.getD_none]
    cases ih with
    | none => rfl
    | some v => rfl
  · intro m0 hsome
    unfold set_monitor
    simp only [hsome, Option.getD_some]
    cases ih with
    | none => rfl
    | some v => rfl
  · unfold set_monitor
    cases ih <;> exact lookupMonitor_insert_self st _ _
  · intro p st' mrec hen hok
    unfold handle_monitor_post at hok
    by_cases h1 : pyLower (pyStrip (p.domain.getD "")) = ""
    · rw [if_pos h1] at hok
      cases hok
    · rw [if_neg h1] at hok
      by_cases h2 : pyDomainMatch (pyLower (pyStrip (p.domain.getD ""))) = true
      · rw [if_neg (by simp [h2])] at hok
        cases hok
        cases hq : p.interval_hours <;> simp [set_monitor, hen, hq]
      · rw [if_pos (by simp [Bool.not_eq_true] at h2 ⊢; exact h2)] at hok
        cases hok

/-- Witness for C9's amended theorem: fresh creation with no interval
and a non-positive interval update to an existing record. -/
theorem set_monitor_upsert_witness :
    lookupMonitor [] (pyLower (pyStrip "example.com")) = none ∧
    (set_monitor [] ⟨2025, 1, 1, 0, 0, 0⟩ "example.com" true none).2 = {
      enabled := true, interval_hours := 12, last_run := none,
      last_results := [], last_new := [],
      created_at := fmtIso ⟨2025, 1, 1, 0, 0, 0⟩,
      updated_at := fmtIso ⟨2025, 1, 1, 0, 0, 0⟩ } :=
  ⟨by decide,
   (set_monitor_upsert [] ⟨2025, 1, 1, 0, 0, 0⟩ "example.com" true none).1 (by decide)⟩

/-- C5, counterexample to the claim as stated: the domain `"a-.com"`
violates the claimed hostname syntax (its first label ends in a
hyphen), yet the regex in `handle_monitor_post` accepts it — the final
`[a-zA-Z0-9]?` of the first-label fragment is optional, so nothing
forbids a trailing hyphen — and a monitor record is created and stored
for it. -/
theorem handle_monitor_post_accepts_trailing_hyphen :
    pyDomainMatch (pyLower (pyStrip "a-.com")) = true ∧
    specHostnameOk "a-.com" = false ∧
    (handle_monitor_post [] ⟨2025, 1, 1, 0, 0, 0⟩
      ⟨some "a-.com", some true, some 12⟩).toOption.map
        (fun x => (lookupMonitor x.1 "a-.com").isSome) = some true := by
  decide

/-- C5, amended: a domain is accepted only if it matches the
implemented pattern `pyDomainMatch` — two or three dot-separated
labels, the first starting with an alphanumeric and containing only
alphanumerics and hyphens (so no leading hyphen, but a trailing hyphen
is allowed), the remaining labels purely alphabetic of length at least
two — and any non-matching (or empty) domain is rejected with a
validation error before `set_monitor` runs, so no record is created or
persisted. -/
theorem handle_monitor_post_validation (st : MonitorState) (now : DT)
    (p : MonitorPostPayload) :
    (∀ st' mrec, handle_monitor_post st now p = .ok (st', mrec) →
      pyDomainMatch (pyLower (pyStrip (p.domain.getD ""))) = true) ∧
    (pyDomainMatch (pyLower (pyStrip (p.domain.getD ""))) = false →
      (handle_monitor_post st now p = .error "Missing domain" ∨
       handle_monitor_post st now p = .error "Invalid domain")) ∧
    (∀ d : String, pyDomainMatch d = true →
      (splitOnChar '.' d.data).length = 2 ∨ (splitOnChar '.' d.data).length = 3) ∧
    (∀ d : String, pyDomainMatch d = true →
      ∃ c rest, (splitOnChar '.' d.data).headD [] = c :: rest ∧ isAlnumA c = true) ∧
    (∀ d : String, pyDomainMatch d = true →
      2 ≤ ((splitOnChar '.' d.data).getLastD []).length ∧
      ((splitOnChar '.' d.data).getLastD []).all Char.isAlpha = true) := by
  refine ⟨?_, ?_, ?_, ?_, ?_⟩
  · intro st' mrec hok
    unfold handle_monitor_post at hok
    by_cases h1 : pyLower (pyStrip (p.domain.getD "")) = ""
    · rw [if_pos h1] at hok
      cases hok
    · rw [if_neg h1] at hok
      by_cases h2 : pyDomainMatch (pyLower (pyStrip (p.domain.getD ""))) = true
      · exact h2
      · rw [if_pos (by simp [Bool.not_eq_true] at h2 ⊢; exact h2)] at hok
        cases hok
  · intro hfail
    unfold handle_monitor_post
    by_cases h1 : pyLower (pyStrip (p.domain.getD "")) = ""
    · left
      rw [if_pos h1]
    · right
      rw [if_neg h1, if_pos (by rw [hfail]; rfl)]
  · intro d hd
    unfold pyDomainMatch at hd
    split at hd
    · rename_i heq
      left
      rw [heq]
      rfl
    · rename_i heq
      right
      rw [heq]
      rfl
    · cases hd
  · intro d hd
    unfold pyDomainMatch at hd
    have hfirst : firstLabelOk ((splitOnChar '.' d.data).headD []) = true := by
      split at hd
      · rename_i heq
        rw [heq]
        simp only [Bool.and_eq_true] at hd
        exact hd.1
      · rename_i heq
        rw [heq]
        simp only [Bool.and_eq_true] at hd
        exact hd.1.1
      · cases hd
    cases hhead : (splitOnChar '.' d.data).headD [] with
    | nil =>
      rw [hhead] at hfirst
      cases hfirst
    | cons c rest =>
      rw [hhead] at hfirst
      unfold firstLabelOk at hfirst
      simp only [Bool.and_eq_true] at hfirst
      exact ⟨c, rest, rfl, hfirst.1.1⟩
  · intro d hd
    unfold pyDomainMatch at hd
    have hlast : alphaLabel2 ((splitOnChar '.' d.data).getLastD []) = true := by
      split at hd
      · rename_i heq
        rw [heq]
        simp only [Bool.and_eq_true] at hd
        exact hd.2
      · rename_i heq
        rw [heq]
        simp only [Bool.and_eq_true] at hd
        exact hd.2
      · cases hd
    unfold alphaLabel2 at hlast
    simp only [Bool.and_eq_true, decide_eq_true_eq] at hlast
    exact hlast

/-- Witness for C5's amended theorem: a malformed domain is refused
with a validation error, and a well-formed accepted domain satisfies
the matched-pattern consequences. -/
theorem handle_monitor_post_validation_witness :
    pyDomainMatch (pyLower (pyStrip "bad_domain")) = false ∧
    (handle_monitor_post [] ⟨2025, 1, 1, 0, 0, 0⟩ ⟨some "bad_domain", none, none⟩ =
        .error "Missing domain" ∨
     handle_monitor_post [] ⟨2025, 1, 1, 0, 0, 0⟩ ⟨some "bad_domain", none, none⟩ =
        .error "Invalid domain") ∧
    (2 ≤ ((splitOnChar '.' ("example.com" : String).data).getLastD []).length ∧
      ((splitOnChar '.' ("example.com" : String).data).getLastD []).all Char.isAlpha = true) :=
  ⟨by decide,
   (handle_monitor_post_validation [] ⟨2025, 1, 1, 0, 0, 0⟩
     ⟨some "bad_domain", none, none⟩).2.1 (by decide),
   (handle_monitor_post_validation [] ⟨2025, 1, 1, 0, 0, 0⟩
     ⟨some "bad_domain", none, none⟩).2.2.2.2 "example.com" (by decide)⟩

theorem keepRelated_related {domain x : String} (h : keepRelated domain x = true) :
    (x == domain || pyEndsWith x ("." ++ domain)) = true := by
  unfold keepRelated at h
  simp only [Bool.and_eq_true] at h
  exact h.2

theorem mem_fetch_crt_subdomains {domain x : String} {nameValues : List String}
    (h : x ∈ fetch_crt_subdomains domain nameValues) :
    keepRelated domain x = true ∧ pyLower x = x := by
  unfold fetch_crt_subdomains at h
  rw [pySortedSet_mem, List.mem_filter] at h
  obtain ⟨hmem, hkeep⟩ := h
  refine ⟨hkeep, ?_⟩
  rw [List.mem_map] at hmem
  obtain ⟨name, -, rfl⟩ := hmem
  exact pyLower_idem _

theorem mem_fetch_wayback_subdomains {domain x : String} {netloc : String → String}
    {rawLines : List String}
    (h : x ∈ fetch_wayback_subdomains domain netloc rawLines) :
    keepRelated domain x = true ∧ pyLower x = x := by
  unfold fetch_wayback_subdomains at h
  rw [pySortedSet_mem, List.mem_filter] at h
  obtain ⟨hmem, hkeep⟩ := h
  refine ⟨hkeep, ?_⟩
  rw [List.mem_map] at hmem
  obtain ⟨line, -, rfl⟩ := hmem
  exact pyLower_idem _

theorem subfinder_fold_invariant (domain : String) :
    ∀ (lines : List String)
      (hl : ∀ h ∈ lines, ∀ ch ∈ h.data, pyLowerChar ch = ch)
      (acc : List String)
      (hacc : ∀ x ∈ acc, keepRelated domain x = true ∧ pyLower x = x),
      ∀ x ∈ lines.foldl (fun (acc : List String) h =>
        let host : String := ⟨beforeFirstSep ':' (afterLastSep '@' h.data)⟩
        if keepRelated domain host && !(acc.contains host) then acc ++ [host] else acc) acc,
      keepRelated domain x = true ∧ pyLower x = x := by
  intro lines
  induction lines with
  | nil => intro _ acc hacc x hx; exact hacc x hx
  | cons h t ih =>
    intro hl acc hacc x hx
    simp only [List.foldl_cons] at hx
    refine ih (fun g hg => hl g (List.mem_cons_of_mem _ hg)) _ ?_ x hx
    intro y hy
    split at hy
    · rename_i hcond
      rw [List.mem_append] at hy
      cases hy with
      | inl hy => exact hacc y hy
      | inr hy =>
        rw [List.mem_singleton] at hy
        subst hy
        simp only [Bool.and_eq_true] at hcond
        refine ⟨hcond.1, ?_⟩
        refine pyLower_fixed_of_chars ?_
        intro ch hch
        exact hl h (List.mem_cons_self h t) ch
          (mem_afterLastSep (mem_beforeFirstSep hch))
    · exact hacc y hy

theorem mem_run_subfinder {domain x : String} {stdoutLines : List String}
    (h : x ∈ run_subfinder domain stdoutLines) :
    keepRelated domain x = true ∧ pyLower x = x := by
  unfold run_subfinder at h
  rw [(List.perm_insertionSort _ _).mem_iff] at h
  refine subfinder_fold_invariant domain _ ?_ [] (by simp) x h
  intro g hg
  rw [List.mem_map] at hg
  obtain ⟨y, -, rfl⟩ := hg
  exact chars_pyLower_fixed y

/-- C6: for every domain and any collaborator outputs — certificate-log
`name_value` rows, archive CDX lines under any URL-authority extraction,
and subfinder stdout lines — the aggregated `_scan_domain` result is a
deterministically sorted, duplicate-free list whose every element is
lower-case and either equal to the domain or ending in `"." + domain`,
and its membership is exactly the union of the three per-source
results. -/
theorem scan_domain_spec (domain : String) (crtNameValues : List String)
    (netloc : String → String) (waybackLines subfinderLines : List String) :
    List.Sorted pyLe (scan_domain domain crtNameValues netloc waybackLines subfinderLines) ∧
    (scan_domain domain crtNameValues netloc waybackLines subfinderLines).Nodup ∧
    (∀ x ∈ scan_domain domain crtNameValues netloc waybackLines subfinderLines,
      (x == domain || pyEndsWith x ("." ++ domain)) = true ∧ pyLower x = x) ∧
    (∀ x, x ∈ scan_domain domain crtNameValues netloc waybackLines subfinderLines ↔
      (x ∈ fetch_crt_subdomains domain crtNameValues ∨
       x ∈ fetch_wayback_subdomains domain netloc waybackLines ∨
       x ∈ run_subfinder domain subfinderLines)) := by
  have hmem : ∀ x, x ∈ scan_domain domain crtNameValues netloc waybackLines subfinderLines ↔
      (x ∈ fetch_crt_subdomains domain crtNameValues ∨
       x ∈ fetch_wayback_subdomains domain netloc waybackLines ∨
       x ∈ run_subfinder domain subfinderLines) := by
    intro x
    unfold scan_domain
    rw [pySortedSet_mem, List.mem_append, List.mem_append]
    tauto
  refine ⟨pySortedSet_sorted _, pySortedSet_nodup _, ?_, hmem⟩
  intro x hx
  rcases (hmem x).mp hx with hc | hw | hs
  · have := mem_fetch_crt_subdomains hc
    exact ⟨keepRelated_related this.1, this.2⟩
  · have := mem_fetch_wayback_subdomains hw
    exact ⟨keepRelated_related this.1, this.2⟩
  · have := mem_run_subfinder hs
    exact ⟨keepRelated_related this.1, this.2⟩

/-- Witness for C6 on concrete collaborator outputs: a mixed-case,
multi-name certificate row, an unrelated entry that must be dropped,
and a subfinder line with a port suffix. -/
theorem scan_domain_spec_witness :
    ("mail.example.com" ∈ scan_domain "example.com"
      ["Sub.Example.COM\nmail.example.com\nunrelated.org"] (fun _ => "") []
      ["a.example.com:443"]) ∧
    (("mail.example.com" == "example.com" ||
      pyEndsWith "mail.example.com" ("." ++ "example.com")) = true ∧
      pyLower "mail.example.com" = "mail.example.com") :=
  ⟨by decide,
   (scan_domain_spec "example.com"
     ["Sub.Example.COM\nmail.example.com\nunrelated.org"] (fun _ => "") []
     ["a.example.com:443"]).2.2.1 "mail.example.com" (by decide)⟩

theorem dedup_hosts_fold_nodup :
    ∀ (hosts acc : List String), acc.Nodup →
      (hosts.foldl (fun (acc : List String) h =>
        let h := pyLower (pyStrip h)
        if h = "" || acc.contains h then acc else acc ++ [h]) acc).Nodup := by
  intro hosts
  induction hosts with
  | nil => intro acc h; exact h
  | cons g t ih =>
    intro acc hacc
    simp only [List.foldl_cons]
    refine ih _ ?_
    by_cases hcond : (pyLower (pyStrip g) = "" || acc.contains (pyLower (pyStrip g))) = true
    · rw [if_pos hcond]
      exact hacc
    · rw [if_neg hcond]
      simp only [Bool.or_eq_true, decide_eq_true_eq, not_or] at hcond
      rw [List.nodup_append]
      refine ⟨hacc, List.nodup_singleton _, ?_⟩
      intro y hy hmem
      rw [List.mem_singleton] at hmem
      subst hmem
      exact hcond.2 (List.elem_iff.mpr hy)

theorem dedup_hosts_nodup (hosts : List String) : (dedup_hosts hosts).Nodup :=
  dedup_hosts_fold_nodup hosts [] List.nodup_nil

theorem order_index_get :
    ∀ (l : List String), l.Nodup → ∀ (i : Nat) (hi : i < l.length),
      order_index l (l.get ⟨i, hi⟩) = some i := by
  intro l
  induction l with
  | nil => intro _ i hi; simp at hi
  | cons a t ih =>
    intro hnd i hi
    cases i with
    | zero => simp [order_index]
    | succ j =>
      have hj : j < t.length := by simpa using hi
      have hget : (a :: t).get ⟨j + 1, hi⟩ = t.get ⟨j, hj⟩ := rfl
      rw [hget]
      have hne : ¬(a == t.get ⟨j, hj⟩) = true := by
        simp only [beq_iff_eq]
        intro hc
        rw [List.nodup_cons] at hnd
        exact hnd.1 (hc ▸ List.get_mem t j hj)
      unfold order_index
      rw [if_neg hne, ih hnd.of_cons j hj]
      rfl

theorem probeSortKey_map_get (oh : List String) (hoh : oh.Nodup)
    (probe : String → ProbeResult) (hfid : ∀ h, (probe h).host = h)
    (i : Nat) (hi : i < oh.length) :
    probeSortKey oh (probe (oh.get ⟨i, hi⟩)) = i := by
  unfold probeSortKey
  rw [hfid, order_index_get oh hoh i hi]
  rfl

theorem pySortResults_eq (oh : List String) (hoh : oh.Nodup)
    (probe : String → ProbeResult) (hfid : ∀ h, (probe h).host = h)
    (results : List ProbeResult) (hperm : results.Perm (oh.map probe)) :
    pySortResults oh results = oh.map probe := by
  haveI htot : IsTotal ProbeResult (fun a b => probeSortKey oh a ≤ probeSortKey oh b) :=
    ⟨fun a b => Nat.le_total _ _⟩
  haveI htr : IsTrans ProbeResult (fun a b => probeSortKey oh a ≤ probeSortKey oh b) :=
    ⟨fun a b c => Nat.le_trans⟩
  haveI hanti : IsAntisymm ProbeResult (fun a b => probeSortKey oh a < probeSortKey oh b) :=
    ⟨fun a b h1 h2 => absurd h2 (Nat.lt_asymm h1)⟩
  have hsortperm : (pySortResults oh results).Perm (oh.map probe) :=
    (List.perm_insertionSort _ _).trans hperm
  have hsorted : List.Sorted (fun a b => probeSortKey oh a ≤ probeSortKey oh b)
      (pySortResults oh results) := List.sorted_insertionSort _ _
  have htargetPW : List.Pairwise (fun a b => probeSortKey oh a < probeSortKey oh b)
      (oh.map probe) := by
    rw [List.pairwise_iff_getElem]
    intro i j hi hj hij
    have hi2 : i < oh.length := by simpa using hi
    have hj2 : j < oh.length := by simpa using hj
    have hgi : (oh.map probe)[i] = probe (oh.get ⟨i, hi2⟩) := by simp
    have hgj : (oh.map probe)[j] = probe (oh.get ⟨j, hj2⟩) := by simp
    rw [hgi, hgj, probeSortKey_map_get oh hoh probe hfid i hi2,
      probeSortKey_map_get oh hoh probe hfid j hj2]
    exact hij
  have hkeysnodup : ((pySortResults oh results).map (probeSortKey oh)).Nodup := by
    have h1 : ((oh.map probe).map (probeSortKey oh)).Nodup :=
      List.pairwise_map.mpr (htargetPW.imp (fun hab => Nat.ne_of_lt hab))
    exact ((hsortperm.map (probeSortKey oh)).nodup_iff).mpr h1
  have hstrict : List.Pairwise (fun a b => probeSortKey oh a < probeSortKey oh b)
      (pySortResults oh results) := by
    have hne : List.Pairwise (fun a b => probeSortKey oh a ≠ probeSortKey oh b)
        (pySortResults oh results) := List.pairwise_map.mp hkeysnodup
    exact (hsorted.and hne).imp (fun hab => Nat.lt_of_le_of_ne hab.1 hab.2)
  exact List.eq_of_perm_of_sorted hsortperm hstrict htargetPW

/-- C8: for every accepted enrichment request, the hosts of the sorted
probe results, in order, equal the request's hosts after
case-insensitive first-seen deduplication (`dedup_hosts`), regardless
of the order in which the concurrent probes completed — any permuted
collection of the per-host results is sorted back into that order —
given only that the prober labels each result with its own host, as
`fetch_one_host` does on both its success and failure paths. -/
theorem probe_results_order (hosts : List String) (probe : String → ProbeResult)
    (hfid : ∀ h, (probe h).host = h)
    (results : List ProbeResult)
    (hperm : results.Perm ((dedup_hosts hosts).map probe)) :
    (pySortResults (dedup_hosts hosts) results).map (fun r => r.host) = dedup_hosts hosts ∧
    (∀ res, handle_meta probe hosts = .ok res →
      res.map (fun r => r.host) = dedup_hosts hosts) := by
  have hmain : ∀ rs : List ProbeResult, rs.Perm ((dedup_hosts hosts).map probe) →
      (pySortResults (dedup_hosts hosts) rs).map (fun r => r.host) = dedup_hosts hosts := by
    intro rs hrs
    rw [pySortResults_eq (dedup_hosts hosts) (dedup_hosts_nodup hosts) probe hfid rs hrs]
    rw [List.map_map]
    have hco : (fun r : ProbeResult => r.host) ∘ probe = id := by
      funext h
      exact hfid h
    rw [hco, List.map_id]
  refine ⟨hmain results hperm, ?_⟩
  intro res hok
  unfold handle_meta at hok
  cases hmeta : handle_meta_hosts hosts with
  | error e =>
    rw [hmeta] at hok
    cases hok
  | ok ordered =>
    rw [hmeta] at hok
    cases hok
    have hord : ordered = dedup_hosts hosts := by
      unfold handle_meta_hosts at hmeta
      by_cases h1 : hosts.isEmpty = true
      · rw [if_pos h1] at hmeta
        cases hmeta
      · rw [if_neg h1] at hmeta
        by_cases h2 : 200 < hosts.length
        · rw [if_pos h2] at hmeta
          cases hmeta
        · rw [if_neg h2] at hmeta
          cases hmeta
          rfl
    subst hord
    exact hmain _ (List.Perm.refl _)

/-- Witness for C8: a request with a duplicate differing only in case,
whose probe results arrive in reversed completion order, is sorted back
to the deduplicated request order. -/
theorem probe_results_order_witness :
    ([(⟨"a.example.com", []⟩ : ProbeResult), ⟨"b.example.com", []⟩].Perm
      ((dedup_hosts ["B.example.com", "a.example.com", "b.example.com"]).map
        (fun h => (⟨h, []⟩ : ProbeResult)))) ∧
    (pySortResults (dedup_hosts ["B.example.com", "a.example.com", "b.example.com"])
      [(⟨"a.example.com", []⟩ : ProbeResult), ⟨"b.example.com", []⟩]).map
        (fun r => r.host) =
      dedup_hosts ["B.example.com", "a.example.com", "b.example.com"] :=
  ⟨by decide,
   (probe_results_order ["B.example.com", "a.example.com", "b.example.com"]
     (fun h => ⟨h, []⟩) (fun _ => rfl)
     [⟨"a.example.com", []⟩, ⟨"b.example.com", []⟩] (by decide)).1⟩

/-- Witness for C2, the spec's own scenario: scans returning
`{a, b}.example.com` then `{a, c}.example.com` diff to exactly
`[c.example.com]`; the emitted event lists exactly the new assets. -/
theorem tick_monitor_diff_witness :
    (tick_monitor "example.com"
      ⟨true, 12, some "2025-01-01T00:00:00Z", ["a.example.com", "b.example.com"], [],
        "2025-01-01T00:00:00Z", "2025-01-01T00:00:00Z"⟩
      ["a.example.com", "c.example.com"] ⟨2025, 1, 2, 0, 0, 0⟩ true).2.1 =
      some (mkEvent "example.com" ["c.example.com"] "2025-01-02T00:00:00Z") ∧
    (mkEvent "example.com" ["c.example.com"] "2025-01-02T00:00:00Z").new_subdomains =
      (tick_monitor "example.com"
        ⟨true, 12, some "2025-01-01T00:00:00Z", ["a.example.com", "b.example.com"], [],
          "2025-01-01T00:00:00Z", "2025-01-01T00:00:00Z"⟩
        ["a.example.com", "c.example.com"] ⟨2025, 1, 2, 0, 0, 0⟩ true).1.last_new :=
  ⟨by decide,
   ((tick_monitor_diff "example.com"
      ⟨true, 12, some "2025-01-01T00:00:00Z", ["a.example.com", "b.example.com"], [],
        "2025-01-01T00:00:00Z", "2025-01-01T00:00:00Z"⟩
      ["a.example.com", "c.example.com"] ⟨2025, 1, 2, 0, 0, 0⟩).2.2.2
      (mkEvent "example.com" ["c.example.com"] "2025-01-02T00:00:00Z")
      (by decide)).2.2.1⟩
